import Mathlib

set_option maxHeartbeats 1000000

/-!
A shallow embedding of the structural predicate engine in
`src/citest/json_predicate/binary_predicate.py`: JSON runtime values, the
predicate-result model, Python value equality and ordering, and the binary
predicate evaluation functions, together with theorems checking the module's
natural-language specification.

Modelling conventions:
* Python's distinct numeric runtime types (`int`, `long`, `float`, `bool`)
  are separate constructors, because `isinstance` dispatch distinguishes
  them (`bool` is a subclass of `int`).  Numeric payloads are modelled as
  integers: no property below inspects a non-integral float payload, only
  dispatch on the `float` runtime type.
* Fatal errors (Python `raise`) are the `.error` side of `Except`;
  predicate results (including error results) are the `.ok` side.
* Operands are modelled as literal JSON values; `context.eval` of a
  non-callable returns it unchanged, so the execution context is the
  identity for every evaluation below.  Deferred operands are modelled
  separately for the operand-resolution properties.
* The diagnostic `source` and `pred` fields of Python result objects are
  not modelled; the validity flag, the target path and the compared
  path value are.
-/

/-- A JSON-like runtime value as handled by the predicate engine. -/
inductive JsonValue where
  | str (s : String)
  | int (n : Int)
  | long (n : Int)
  | float (n : Int)
  | bool (b : Bool)
  | null
  | obj (fields : List (String × JsonValue))
  | arr (elems : List JsonValue)

/-- A fatal (raised, not returned) error: `TypeError`, `NotImplementedError`
or `AttributeError` in the Python source. -/
inductive Fatal where
  | typeError
  | notImplemented
  | attributeError
  deriving DecidableEq

/-- The outcome of applying one predicate to one value.  `pathValue` is
`PathValueResult`, the three error constructors are the named error results,
and `keyed`/`sequenced` are the aggregate results built per-key / per-index. -/
inductive PredResult where
  | pathValue (valid : Bool) (targetPath : String) (pvVal : JsonValue)
  | typeMismatch (targetPath : String)
  | missingPath (targetPath : String)
  | unexpectedPath (targetPath : String) (pvVal : JsonValue)
  | keyed (valid : Bool) (entries : List (String × PredResult))
  | sequenced (valid : Bool) (entries : List PredResult)

/-- Boolean coercion of a result (`__nonzero__`): the validity flag; the
named error results are always invalid. -/
def isValid : PredResult → Bool
  | .pathValue v _ _ => v
  | .typeMismatch _ => false
  | .missingPath _ => false
  | .unexpectedPath _ _ => false
  | .keyed v _ => v
  | .sequenced v _ => v

/-- The `target_path` carried by a leaf result (aggregates report at root). -/
def targetPathOf : PredResult → String
  | .pathValue _ tp _ => tp
  | .typeMismatch tp => tp
  | .missingPath tp => tp
  | .unexpectedPath tp _ => tp
  | .keyed _ _ => ""
  | .sequenced _ _ => ""

/-- Entries of a `sequenced` aggregate result. -/
def seqEntries : PredResult → List PredResult
  | .sequenced _ es => es
  | _ => []

/-- Entries of a `keyed` aggregate result. -/
def keyedEntries : PredResult → List (String × PredResult)
  | .keyed _ es => es
  | _ => []

/-- Path concatenation used by `_is_subset`:
`'{0}/{1}'.format(path, name) if path else name`. -/
def joinPath (path name : String) : String :=
  if path = "" then name else path ++ "/" ++ name

/-- Python numeric coercion: the numeric value of an `int`, `long`, `float`
or `bool` (`True == 1`), and `none` for every non-numeric runtime type. -/
def numVal : JsonValue → Option Int
  | .int n => some n
  | .long n => some n
  | .float n => some n
  | .bool b => some (if b then 1 else 0)
  | _ => none

/-- `isinstance(x, (int, long, float))`: true for the numeric runtime types,
including `bool` (a subclass of `int`). -/
def isNumType : JsonValue → Bool
  | .int _ => true
  | .long _ => true
  | .float _ => true
  | .bool _ => true
  | _ => false

/-- `isinstance(x, basestring)`. -/
def isStrType : JsonValue → Bool
  | .str _ => true
  | _ => false

/-- `isinstance(x, (int, long, float, basestring))`, the scalar test of
`_verify_elem`. -/
def isScalarInstance (v : JsonValue) : Bool :=
  isNumType v || isStrType v

/-- Dictionary field access `b[name]`, also yielding the size bound needed
for termination of the recursive matchers. -/
def jsonLookupS (key : String) :
    (l : List (String × JsonValue)) → Option {v : JsonValue // sizeOf v < sizeOf l}
  | [] => none
  | (k, v) :: rest =>
    if k == key then some ⟨v, by simp; omega⟩
    else
      match jsonLookupS key rest with
      | some ⟨w, h⟩ => some ⟨w, by simp; omega⟩
      | none => none

/-- Dictionary field access `b[name]` (value only). -/
def jsonLookup (key : String) (l : List (String × JsonValue)) : Option JsonValue :=
  (jsonLookupS key l).map Subtype.val

mutual

/-- Python `==` on JSON runtime values: numeric types compare by numeric
value across `int`/`long`/`float`/`bool`; strings, lists and dicts compare
structurally; everything else compares unequal across runtime types.
Dict comparison checks equal size and mutual key-wise inclusion, which on
dicts (whose keys are unique) coincides with CPython's size check plus
one-sided key-wise comparison. -/
def pyEq (x y : JsonValue) : Bool :=
  match x, y with
  | .arr a, .arr b => pyEqList a b
  | .obj a, .obj b => a.length == b.length && pySubsetEq a b && pySubsetEq b a
  | .str a, .str b => a == b
  | .null, .null => true
  | x, y =>
    match numVal x, numVal y with
    | some p, some q => p == q
    | _, _ => false
termination_by 2 * (sizeOf x + sizeOf y) + 1

/-- Elementwise Python `==` on lists (equal length required). -/
def pyEqList (a b : List JsonValue) : Bool :=
  match a, b with
  | [], [] => true
  | x :: xs, y :: ys => pyEq x y && pyEqList xs ys
  | _, _ => false
termination_by 2 * (sizeOf a + sizeOf b)

/-- Key-wise inclusion of one dict's fields in another under Python `==`. -/
def pySubsetEq (a b : List (String × JsonValue)) : Bool :=
  match a with
  | [] => true
  | (k, v) :: rest =>
    match jsonLookupS k b with
    | some ⟨w, _⟩ => pyEq v w && pySubsetEq rest b
    | none => false
termination_by 2 * (sizeOf a + sizeOf b)

end

/-- Python `x in list` membership, via `==`. -/
def pyMem (x : JsonValue) : List JsonValue → Bool
  | [] => false
  | y :: ys => pyEq x y || pyMem x ys

/-- CPython 2 cross-type ordering rank: `None` sorts below numbers, numbers
below every other type, and remaining types by type name
(`dict` < `list` < `str`). -/
def typeRank : JsonValue → Nat
  | .null => 0
  | .int _ => 1
  | .long _ => 1
  | .float _ => 1
  | .bool _ => 1
  | .obj _ => 2
  | .arr _ => 3
  | .str _ => 4

/-- Three-way comparison on integers. -/
def intCmp (p q : Int) : Ordering :=
  if p < q then .lt else if q < p then .gt else .eq

mutual

/-- Python 2 `cmp` on JSON runtime values, as used by `sorted`:
numbers compare numerically across numeric types, other types compare by
`typeRank`, strings lexicographically, lists lexicographically.  Dicts
compare by size and then field-wise; CPython 2's exact dict ordering is an
interpreter detail that no property below exercises. -/
def pyCmp (x y : JsonValue) : Ordering :=
  match numVal x, numVal y with
  | some p, some q => intCmp p q
  | _, _ =>
    if typeRank x ≠ typeRank y then intCmp (typeRank x) (typeRank y)
    else
      match x, y with
      | .str a, .str b => compare a b
      | .arr a, .arr b => pyCmpList a b
      | .obj a, .obj b => (intCmp a.length b.length).then (pyCmpFields a b)
      | _, _ => .eq
termination_by 2 * (sizeOf x + sizeOf y) + 1

/-- Lexicographic Python 2 comparison of lists. -/
def pyCmpList (a b : List JsonValue) : Ordering :=
  match a, b with
  | [], [] => .eq
  | [], _ :: _ => .lt
  | _ :: _, [] => .gt
  | x :: xs, y :: ys => (pyCmp x y).then (pyCmpList xs ys)
termination_by 2 * (sizeOf a + sizeOf b)

/-- Field-wise comparison of equally sized dicts (keys, then values). -/
def pyCmpFields (a b : List (String × JsonValue)) : Ordering :=
  match a, b with
  | [], [] => .eq
  | [], _ :: _ => .lt
  | _ :: _, [] => .gt
  | (k1, v1) :: r1, (k2, v2) :: r2 =>
    ((compare k1 k2).then (pyCmp v1 v2)).then (pyCmpFields r1 r2)
termination_by 2 * (sizeOf a + sizeOf b)

end

/-- Stable insertion of one element into an already sorted list, placing it
after every element that does not compare greater. -/
def pyInsert (x : JsonValue) : List JsonValue → List JsonValue
  | [] => [x]
  | y :: ys =>
    match pyCmp y x with
    | .gt => x :: y :: ys
    | _ => y :: pyInsert x ys

/-- Python `sorted`: a stable ascending sort under `pyCmp`. -/
def pySorted (l : List JsonValue) : List JsonValue :=
  l.foldl (fun acc x => pyInsert x acc) []

/-- The index loop of `lists_equivalent`: for each position of the first
list, `sorted_b[index] != value` fails the comparison. -/
def allPyEq : List JsonValue → List JsonValue → Bool
  | [], _ => true
  | x :: xs, y :: ys => pyEq y x && allPyEq xs ys
  | _ :: _, [] => false

/-- `lists_equivalent(a, b)`: equal length, and the two sequences are equal
position-wise after each is independently sorted. -/
def lists_equivalent (a b : List JsonValue) : Bool :=
  if a.length ≠ b.length then false
  else allPyEq (pySorted a) (pySorted b)

/-- Substring scan over character lists (`a.find(b) >= 0`). -/
def charsContain : List Char → List Char → Bool
  | [], needle => needle.isEmpty
  | c :: t, needle => needle.isPrefixOf (c :: t) || charsContain t needle

/-- Python `value.find(operand) >= 0`. -/
def strContains (hay needle : String) : Bool :=
  charsContain hay.toList needle.toList

/-- `STR_SUBSTR(operand)(context, value)`: the factory's `operand_type` is
`basestring`, so a literal non-string operand is a construction-time
`TypeError`; a non-string value is a `TypeMismatchError` result; otherwise
validity is the substring test `value.find(operand) >= 0`. -/
def strSubstrCall (operand value : JsonValue) : Except Fatal PredResult :=
  match operand with
  | .str o =>
    match value with
    | .str s => .ok (.pathValue (strContains s o) "" value)
    | _ => .ok (.typeMismatch "")
  | _ => .error .typeError

/-- `STR_EQ(operand)(context, value)` (`operand_type=basestring`). -/
def strEqCall (operand value : JsonValue) : Except Fatal PredResult :=
  match operand with
  | .str o =>
    match value with
    | .str s => .ok (.pathValue (s == o) "" value)
    | _ => .ok (.typeMismatch "")
  | _ => .error .typeError

/-- `NUM_EQ(operand)(context, value)` (`operand_type=(int, long, float)`). -/
def numEqCall (operand value : JsonValue) : Except Fatal PredResult :=
  if !isNumType operand then .error .typeError
  else if !isNumType value then .ok (.typeMismatch "")
  else .ok (.pathValue (pyEq value operand) "" value)

/-- `DICT_EQ(operand)(context, value)` (`operand_type=dict`). -/
def dictEqCall (operand value : JsonValue) : Except Fatal PredResult :=
  match operand with
  | .obj _ =>
    match value with
    | .obj _ => .ok (.pathValue (pyEq value operand) "" value)
    | _ => .ok (.typeMismatch "")
  | _ => .error .typeError

/-- `LIST_SIMILAR(operand)(context, value)` (`~=`, `operand_type=list`):
validity is `lists_equivalent(value, operand)`. -/
def listSimilarCall (operand value : JsonValue) : Except Fatal PredResult :=
  match operand with
  | .arr o =>
    match value with
    | .arr v => .ok (.pathValue (lists_equivalent v o) "" value)
    | _ => .ok (.typeMismatch "")
  | _ => .error .typeError

/-- `isinstance(x, dict)`. -/
def isObjType : JsonValue → Bool
  | .obj _ => true
  | _ => false

/-- `isinstance(x, list)`. -/
def isArrType : JsonValue → Bool
  | .arr _ => true
  | _ => false

/-- The scalar-mismatch result shaping of `_is_subset`: pick a
type-appropriate equality predicate purely to produce a well-typed failure,
with a `TypeMismatchError` when the operand field value's runtime type
disagrees with the value's. -/
def scalarMismatch (namepath : String) (aValue bValue : JsonValue) : PredResult :=
  match bValue with
  | .str _ =>
    if !isStrType aValue then .typeMismatch namepath
    else .pathValue false namepath bValue
  | .int _ | .long _ | .float _ | .bool _ =>
    if !isNumType aValue then .typeMismatch namepath
    else .pathValue false namepath bValue
  | _ => .pathValue false namepath bValue

/-- Modelled from the spec: `clone_with_source` of `path_result.py` (not
under `src/`) remaps a propagated failure's path onto the current field
("remap the failure's path/source to the current field before
propagating"); modelled as prefixing the leaf result's target path. -/
def withTargetPath (base : String) : PredResult → PredResult
  | .pathValue v tp pv =>
    .pathValue v (if tp = "" then base else joinPath base tp) pv
  | .typeMismatch tp => .typeMismatch (if tp = "" then base else joinPath base tp)
  | .missingPath tp => .missingPath (if tp = "" then base else joinPath base tp)
  | .unexpectedPath tp pv =>
    .unexpectedPath (if tp = "" then base else joinPath base tp) pv
  | r => r

mutual

/-- `ContainsPredicate.__call__`: dispatch on the value's runtime type.
Note that the source tests `isinstance(value, int or long or float)`, and
`int or long or float` evaluates to the class `int`, so only `int` (and its
subclass `bool`) reach the numeric branch; `long` and `float` values fall
through to `raise NotImplementedError`. -/
def containsCall (operand value : JsonValue) : Except Fatal PredResult :=
  match value with
  | .str s => strSubstrCall operand (.str s)
  | .obj fs => dictSubsetCall operand (.obj fs)
  | .int n => numEqCall operand (.int n)
  | .bool b => numEqCall operand (.bool b)
  | .long _ => .error .notImplemented
  | .float _ => .error .notImplemented
  | .null => .error .notImplemented
  | .arr elems =>
    match operand with
    | .arr os => listSubsetCall false (.arr os) (.arr elems)
    | o => containsSearch o elems []
termination_by 8 * (sizeOf operand + sizeOf value) + 3

/-- The existential tail of `ContainsPredicate.__call__` for a list value
and a non-list operand: recurse over each element in order, return the
first success, and on total failure return an invalid result carrying the
full list of non-matching elements. -/
def containsSearch (operand : JsonValue) (elems bad : List JsonValue) :
    Except Fatal PredResult :=
  match elems with
  | [] => .ok (.pathValue false "" (.arr bad))
  | e :: rest =>
    match containsCall operand e with
    | .error f => .error f
    | .ok r => if isValid r then .ok r else containsSearch operand rest (bad ++ [e])
termination_by 8 * (sizeOf operand + sizeOf elems) + 2

/-- `DictSubsetPredicate`: construction raises `TypeError` unless the
operand is a dict (a deferred operand is not modelled here); `__call__`
returns a `TypeMismatchError` result for a non-dict value and otherwise
runs `_is_subset(context, value, '', operand, value)`. -/
def dictSubsetCall (operand value : JsonValue) : Except Fatal PredResult :=
  match operand with
  | .obj ao =>
    match value with
    | .obj vf => isSubset "" (.obj ao) (.obj vf)
    | _ => .ok (.typeMismatch "")
  | _ => .error .typeError
termination_by 8 * (sizeOf operand + sizeOf value) + 2

/-- `DictSubsetPredicate._is_subset`: walk `a.items()`; `a.items()` on a
non-dict `a` raises `AttributeError` (reachable when a dict value in `b`
is paired with a non-dict value in `a`). -/
def isSubset (path : String) (a b : JsonValue) : Except Fatal PredResult :=
  match a, b with
  | .obj af, .obj bf => isSubsetFields path af bf
  | _, _ => .error .attributeError
termination_by 8 * (sizeOf a + sizeOf b) + 1

/-- The field loop of `_is_subset` over the remaining operand fields,
against the fields `bf` of the value dict `b`. -/
def isSubsetFields (path : String) (fields bf : List (String × JsonValue)) :
    Except Fatal PredResult :=
  match fields with
  | [] => .ok (.pathValue true path (.obj bf))
  | (name, aValue) :: rest =>
    match jsonLookupS name bf with
    | none => .ok (.missingPath (joinPath path name))
    | some ⟨bValue, _hb⟩ =>
      if isObjType bValue then
        match isSubset (joinPath path name) aValue bValue with
        | .error f => .error f
        | .ok r => if isValid r then isSubsetFields path rest bf else .ok r
      else if isArrType bValue then
        match subFieldList aValue bValue with
        | .error f => .error f
        | .ok r =>
          if isValid r then isSubsetFields path rest bf
          else .ok (withTargetPath (joinPath path name) r)
      else if pyEq aValue bValue then isSubsetFields path rest bf
      else .ok (scalarMismatch (joinPath path name) aValue bValue)
termination_by 8 * (sizeOf fields + sizeOf bf)

/-- The list branch of `_is_subset`: a list counterpart in the value dict is
matched with `ListSubset` when the operand field value is itself a list and
with `Contains` otherwise. -/
def subFieldList (aValue bValue : JsonValue) : Except Fatal PredResult :=
  match aValue with
  | .arr avs => listSubsetCall false (.arr avs) bValue
  | av => containsCall av bValue
termination_by 8 * (sizeOf aValue + sizeOf bValue) + 4

/-- `ListSubsetPredicate`: construction raises `TypeError` unless the
operand is a list; `__call__` returns a `TypeMismatchError` result for a
non-list value and otherwise checks every operand element for membership. -/
def listSubsetCall (strict : Bool) (operand value : JsonValue) :
    Except Fatal PredResult :=
  match operand with
  | .arr elems =>
    match value with
    | .arr vl => listSubsetElems strict elems vl
    | _ => .ok (.typeMismatch "")
  | _ => .error .typeError
termination_by 8 * (sizeOf operand + sizeOf value) + 2

/-- The element loop of `ListSubsetPredicate.__call__`: fail on the first
operand element not verified against the value list. -/
def listSubsetElems (strict : Bool) (elems vl : List JsonValue) :
    Except Fatal PredResult :=
  match elems with
  | [] => .ok (.pathValue true "" (.arr vl))
  | e :: rest =>
    match verifyElem strict e vl with
    | .error f => .error f
    | .ok ok => if ok then listSubsetElems strict rest vl
                else .ok (.pathValue false "" (.arr vl))
termination_by 8 * (sizeOf elems + sizeOf vl) + 1

/-- `_BaseListMembershipPredicate._verify_elem`: literal membership for
strict mode or scalar elements; otherwise a structural-subset scan for
list/dict elements; any other element shape raises `TypeError`.  (The
`if self.__strict: return False` line of the source is unreachable and is
not modelled.) -/
def verifyElem (strict : Bool) (elem : JsonValue) (theList : List JsonValue) :
    Except Fatal Bool :=
  if strict || isScalarInstance elem then .ok (pyMem elem theList)
  else
    match elem with
    | .arr es => verifyScan (.arr es) theList
    | .obj fs => verifyScan (.obj fs) theList
    | _ => .error .typeError
termination_by 8 * (sizeOf elem + sizeOf theList) + 1

/-- The member scan of `_verify_elem`: test whether the element (a list or
dict) is a structural subset of any member of the list. -/
def verifyScan (elem : JsonValue) (members : List JsonValue) : Except Fatal Bool :=
  match members with
  | [] => .ok false
  | v :: vs =>
    match
      (match elem with
       | .arr es => listSubsetCall false (.arr es) v
       | el => dictSubsetCall el v) with
    | .error f => .error f
    | .ok r => if isValid r then .ok true else verifyScan elem vs
termination_by 8 * (sizeOf elem + sizeOf members)

end

/-- `EquivalentPredicate.__call__`: polymorphic equality dispatching on the
value's runtime type, first requiring the resolved operand to be of the
same type family (else a `TypeMismatchError` result), then delegating to
the type-specific `==` predicate (`~=` for lists).  As in
`ContainsPredicate`, `isinstance(value, int or long or float)` tests only
`int`, so only `int` and `bool` values reach the numeric branch. -/
def equivalentCall (operand value : JsonValue) : Except Fatal PredResult :=
  match value with
  | .str s =>
    if !isStrType operand then .ok (.typeMismatch "")
    else strEqCall operand (.str s)
  | .obj fs =>
    if !isObjType operand then .ok (.typeMismatch "")
    else dictEqCall operand (.obj fs)
  | .arr es =>
    if !isArrType operand then .ok (.typeMismatch "")
    else listSimilarCall operand (.arr es)
  | .int n =>
    if !isNumType operand then .ok (.typeMismatch "")
    else numEqCall operand (.int n)
  | .bool b =>
    if !isNumType operand then .ok (.typeMismatch "")
    else numEqCall operand (.bool b)
  | .long _ => .error .notImplemented
  | .float _ => .error .notImplemented
  | .null => .error .notImplemented

/-- Modelled from the spec: `MapPredicate` (`map_predicate.py`, not under
`src/`) applies one predicate across every element of a sequence, retaining
each per-index outcome; overall validity is "at least one element satisfies
the predicate" and, if a maximum is set, "the count of satisfying elements
does not exceed it". -/
def mapPredicate (pred : JsonValue → PredResult) (maxCount : Option Nat)
    (elems : List JsonValue) : PredResult :=
  let results := elems.map pred
  let n := (results.filter isValid).length
  .sequenced
    (decide (1 ≤ n) && (match maxCount with
      | none => true
      | some m => decide (n ≤ m)))
    results

/-- `pred_result.results[index]` truthiness: the per-element outcome of a
map-predicate result. -/
def resultAt (r : PredResult) (i : Nat) : Bool :=
  match (seqEntries r).get? i with
  | some e => isValid e
  | none => false

/-- One step of the `matched_element_count` update of
`ListMatchesPredicate.__call__`: add one at each index whose per-element
sub-result in this pattern's map result was satisfying. -/
def bumpCounts (r : PredResult) : Nat → List Nat → List Nat
  | _, [] => []
  | i, c :: cs => (c + if resultAt r i then 1 else 0) :: bumpCounts r (i + 1) cs

/-- The `'[{0}]'.format(index)` paths of list matching. -/
def pathIndex (i : Nat) : String := "[" ++ toString i ++ "]"

/-- `ListMatchesPredicate._find_strictness_errors`: an `UnexpectedPathError`
on path `[index]` for every index whose matched count is zero. -/
def listStrictErrors : Nat → List Nat → List JsonValue → List PredResult
  | _, [], _ => []
  | _, _, [] => []
  | i, c :: cs, e :: es =>
    (if c == 0 then [.unexpectedPath (pathIndex i) e] else []) ++
      listStrictErrors (i + 1) cs es

/-- `ListMatchesPredicate.__call__`: run each pattern's map predicate with
`max = 1` when `unique`, accumulate per-index matched counts, and when
`strict` merge the strictness errors (only when there is at least one,
forcing the aggregate invalid); overall validity is otherwise the
conjunction of the per-pattern map results. -/
def listMatchesCall (patterns : List (JsonValue → PredResult))
    (strict unique : Bool) (value : JsonValue) : PredResult :=
  match value with
  | .arr elems =>
    let maxCount := if unique then some 1 else none
    let patResults := patterns.map (fun p => mapPredicate p maxCount elems)
    let counts := patResults.foldl (fun acc r => bumpCounts r 0 acc)
      (List.replicate elems.length 0)
    let valid1 := patResults.all isValid
    if strict then
      let errs := listStrictErrors 0 counts elems
      if errs.isEmpty then .sequenced valid1 patResults
      else .sequenced false (patResults ++ errs)
    else .sequenced valid1 patResults
  | _ => .typeMismatch ""

/-- Modelled from the spec: `PathPredicate` (`path_predicate.py`, not under
`src/`) resolves the key through the context, locates the corresponding
entry inside the container (absence is a `MissingPathError`), evaluates the
wrapped predicate against the located value, and reports the result's
target path against the resolved key. -/
def pathPredicateApply (key : String) (pred : JsonValue → PredResult)
    (value : JsonValue) : PredResult :=
  match value with
  | .obj fields =>
    match jsonLookup key fields with
    | some v => withTargetPath key (pred v)
    | none => .missingPath key
  | _ => .missingPath key

/-- `DictMatchesPredicate._find_unexpected_path_errors`: an
`UnexpectedPathError` keyed by every value key absent from the operand's
key set. -/
def unexpectedKeyErrors (operandKeys : List String)
    (fields : List (String × JsonValue)) : List (String × PredResult) :=
  fields.filterMap fun kv =>
    if operandKeys.any (fun k => k == kv.1) then none
    else some (kv.1, .unexpectedPath kv.1 kv.2)

/-- `DictMatchesPredicate.__call__`: project each operand field predicate
onto the corresponding value field, and when `strict` merge an
`UnexpectedPathError` for every unexpected value key (only when there is at
least one, forcing the aggregate invalid). -/
def dictMatchesCall (operand : List (String × (JsonValue → PredResult)))
    (strict : Bool) (value : JsonValue) : PredResult :=
  match value with
  | .obj fields =>
    let fieldResults := operand.map
      (fun kp => (kp.1, pathPredicateApply kp.1 kp.2 (.obj fields)))
    let valid1 := fieldResults.all (fun kr => isValid kr.2)
    if strict then
      let errs := unexpectedKeyErrors (operand.map Prod.fst) fields
      if errs.isEmpty then .keyed valid1 fieldResults
      else .keyed false (fieldResults ++ errs)
    else .keyed valid1 fieldResults
  | _ => .typeMismatch ""

/-- The declared operand runtime-type constraints used by the module's
predicates and factories. -/
inductive TypeConstraint where
  | numeric
  | string
  | dict
  | list
  deriving DecidableEq

/-- `isinstance(v, t)` against a declared operand type constraint. -/
def isInstanceOf (v : JsonValue) : TypeConstraint → Bool
  | .numeric => isNumType v
  | .string => isStrType v
  | .dict => isObjType v
  | .list => isArrType v

/-- Modelled from the spec: the Evaluation Context (not under `src/`)
carries the bindings a deferred operand may consult. -/
structure ExecutionContext where
  bindings : String → JsonValue

/-- An operand bound into a binary predicate: a literal JSON value, or a
deferred callable of the execution context. -/
inductive Operand where
  | lit (v : JsonValue)
  | deferred (f : ExecutionContext → JsonValue)

/-- Modelled from the spec: `context.eval(x)` invokes a deferred operand
with the context and passes a literal through unchanged. -/
def ctxEval (ctx : ExecutionContext) : Operand → JsonValue
  | .lit v => v
  | .deferred f => f ctx

/-- `callable(operand)`. -/
def isCallable : Operand → Bool
  | .lit _ => false
  | .deferred _ => true

/-- `BinaryPredicate.__init__`: raise `TypeError` when an operand type is
declared, the operand is not callable, and the literal operand does not
satisfy the constraint; a deferred operand is not checked at construction. -/
def binaryPredicateInit (operandType : Option TypeConstraint)
    (operand : Operand) : Except Fatal Unit :=
  match operandType, operand with
  | some t, .lit v => if isInstanceOf v t then .ok () else .error .typeError
  | _, _ => .ok ()

/-- `BinaryPredicate.eval_context_operand`: resolve the operand through the
context, raising `TypeError` when a declared operand type constraint is not
satisfied by the resolved value. -/
def evalContextOperand (ctx : ExecutionContext)
    (operandType : Option TypeConstraint) (operand : Operand) :
    Except Fatal JsonValue :=
  let v := ctxEval ctx operand
  match operandType with
  | some t => if isInstanceOf v t then .ok v else .error .typeError
  | none => .ok v

/-- The identity-relevant data of a binary predicate: its concrete kind
(the Python class), its name, its operand and its declared operand type
constraint.  A standard predicate also carries its comparison function
(as a tag), which `__eq__` does not compare. -/
inductive PredData where
  | standard (name compOp : String) (operand : JsonValue)
      (operandType : Option TypeConstraint)
  | listMatches (operand : List PredData) (strict unique : Bool)

/-- The Python class of a predicate (`__class__` equality). -/
def predKind : PredData → String
  | .standard _ _ _ _ => "StandardBinaryPredicate"
  | .listMatches _ _ _ => "ListMatchesPredicate"

/-- The predicate's name (`ListMatchesPredicate` always constructs with the
name `Matches`). -/
def predName : PredData → String
  | .standard n _ _ _ => n
  | .listMatches _ _ _ => "Matches"

/-- The predicate's declared operand type constraint (`ListMatchesPredicate`
declares none). -/
def predOperandType : PredData → Option TypeConstraint
  | .standard _ _ _ t => t
  | .listMatches _ _ _ => none

mutual

/-- `BinaryPredicate.__eq__` as specialized by the concrete classes: same
class, same name, operand equality by value, same operand type constraint;
`ListMatchesPredicate.__eq__` additionally requires equal `unique` and
`strict` flags.  The comparison function of a standard predicate is not
compared. -/
def predEq : PredData → PredData → Bool
  | .standard n1 _ o1 t1, .standard n2 _ o2 t2 =>
    n1 == n2 && pyEq o1 o2 && t1 == t2
  | .listMatches o1 s1 u1, .listMatches o2 s2 u2 =>
    predEqList o1 o2 && u1 == u2 && s1 == s2
  | _, _ => false

/-- Python `==` on lists of predicates (the operand comparison of
`ListMatchesPredicate`). -/
def predEqList : List PredData → List PredData → Bool
  | [], [] => true
  | p :: ps, q :: qs => predEq p q && predEqList ps qs
  | _, _ => false

end

/-- "Same operand (by value)": Python `==` on the operands of two
predicates of the same kind. -/
def predOperandEq : PredData → PredData → Bool
  | .standard _ _ o1 _, .standard _ _ o2 _ => pyEq o1 o2
  | .listMatches o1 _ _, .listMatches o2 _ _ => predEqList o1 o2
  | _, _ => false

/-- `StandardBinaryPredicateFactory`: a name, a comparison function and an
optional operand type constraint, producing a `StandardBinaryPredicate`
once given an operand. -/
structure Factory where
  name : String
  compOp : String
  operandType : Option TypeConstraint

/-- `factory(operand)`: construct the standard predicate; the base-class
constructor enforces the declared operand type on the literal operand. -/
def factoryMake (f : Factory) (operand : JsonValue) : Except Fatal PredData :=
  match f.operandType with
  | some t =>
    if isInstanceOf operand t
    then .ok (.standard f.name f.compOp operand f.operandType)
    else .error .typeError
  | none => .ok (.standard f.name f.compOp operand f.operandType)

/-- Unique keys in a field list (the JSON data model's Object invariant). -/
def keysNodup : List (String × JsonValue) → Bool
  | [] => true
  | (k, _) :: rest => !(rest.any (fun p => p.1 == k)) && keysNodup rest

mutual

/-- Well-formedness used by the subset-reflexivity properties: every object
has unique keys and well-formed field values, and every array contains only
scalar (string, numeric or boolean) elements. -/
def Good : JsonValue → Bool
  | .obj fs => keysNodup fs && goodFields fs
  | .arr es => es.all isScalarInstance
  | _ => true
termination_by v => sizeOf v

/-- Well-formedness of every field value of an object. -/
def goodFields : List (String × JsonValue) → Bool
  | [] => true
  | (_, v) :: rest => Good v && goodFields rest
termination_by l => sizeOf l

end

theorem sizeOf_lt_of_mem_fields {k : String} {v : JsonValue}
    {l : List (String × JsonValue)} (h : (k, v) ∈ l) : sizeOf v < sizeOf l := by
  induction l with
  | nil => cases h
  | cons p rest ih =>
    rcases List.mem_cons.mp h with h1 | h2
    · cases p
      cases h1
      simp
      omega
    · have := ih h2
      cases p
      simp
      omega

theorem jsonLookupS_mem_nodup {k : String} {v : JsonValue}
    {l : List (String × JsonValue)} (hnd : keysNodup l = true) (h : (k, v) ∈ l) :
    ∃ hp, jsonLookupS k l = some ⟨v, hp⟩ := by
  induction l with
  | nil => cases h
  | cons p rest ih =>
    obtain ⟨k', v'⟩ := p
    simp only [keysNodup, Bool.and_eq_true, Bool.not_eq_true'] at hnd
    rcases List.mem_cons.mp h with h1 | h2
    · cases h1
      refine ⟨by simp; omega, ?_⟩
      simp [jsonLookupS]
    · have hne : (k' == k) = false := by
        rcases Bool.eq_false_or_eq_true (k' == k) with ht | hf
        case inr => exact hf
        · exfalso
          have hk : k' = k := by simpa using ht
          subst hk
          have : rest.any (fun p => p.1 == k') = true :=
            List.any_eq_true.mpr ⟨(k', v), h2, by simp⟩
          rw [this] at hnd
          exact absurd hnd.1 (by simp)
      obtain ⟨hp, hS⟩ := ih hnd.2 h2
      refine ⟨by simp; omega, ?_⟩
      simp [jsonLookupS, hne, hS]

theorem jsonLookup_mem_nodup {k : String} {v : JsonValue}
    {l : List (String × JsonValue)} (hnd : keysNodup l = true) (h : (k, v) ∈ l) :
    jsonLookup k l = some v := by
  obtain ⟨hp, hS⟩ := jsonLookupS_mem_nodup hnd h
  simp [jsonLookup, hS]

theorem jsonLookupS_of_lookup {k : String} {v : JsonValue}
    {l : List (String × JsonValue)} (h : jsonLookup k l = some v) :
    ∃ hp, jsonLookupS k l = some ⟨v, hp⟩ := by
  simp only [jsonLookup, Option.map_eq_some'] at h
  obtain ⟨⟨w, hw⟩, hS, hv⟩ := h
  cases hv
  exact ⟨hw, hS⟩

theorem jsonLookupS_of_lookup_none {k : String} {l : List (String × JsonValue)}
    (h : jsonLookup k l = none) : jsonLookupS k l = none := by
  simp only [jsonLookup, Option.map_eq_none'] at h
  exact h

theorem pyEq_self_not_container {v : JsonValue} (ho : isObjType v = false)
    (ha : isArrType v = false) : pyEq v v = true := by
  cases v <;> simp_all [isObjType, isArrType, pyEq, numVal]

theorem pyEq_self_scalar {v : JsonValue} (h : isScalarInstance v = true) :
    pyEq v v = true := by
  cases v <;> simp_all [isScalarInstance, isNumType, isStrType, pyEq, numVal]

/-- C7: a declared operand type constraint is enforced fatally on a literal
operand at construction time; a deferred operand is never checked at
construction, and is instead checked when resolved through the context
during evaluation, where a violating resolved value raises the same fatal
`TypeError` rather than returning a mismatch result. -/
theorem operand_type_enforcement :
    (∀ (t : TypeConstraint) (v : JsonValue), isInstanceOf v t = false →
      binaryPredicateInit (some t) (.lit v) = .error .typeError)
    ∧ (∀ (t : TypeConstraint) (f : ExecutionContext → JsonValue),
        binaryPredicateInit (some t) (.deferred f) = .ok ())
    ∧ (∀ (ctx : ExecutionContext) (t : TypeConstraint)
        (f : ExecutionContext → JsonValue), isInstanceOf (f ctx) t = false →
        evalContextOperand ctx (some t) (.deferred f) = .error .typeError)
    ∧ (∀ (ctx : ExecutionContext) (t : TypeConstraint)
        (f : ExecutionContext → JsonValue), isInstanceOf (f ctx) t = true →
        evalContextOperand ctx (some t) (.deferred f) = .ok (f ctx)) := by
  refine ⟨?_, ?_, ?_, ?_⟩
  · intro t v h
    simp [binaryPredicateInit, h]
  · intro t f
    simp [binaryPredicateInit]
  · intro ctx t f h
    simp [evalContextOperand, ctxEval, h]
  · intro ctx t f h
    simp [evalContextOperand, ctxEval, h]

theorem operand_type_enforcement_witness :
    isInstanceOf (.str "x") .numeric = false
    ∧ binaryPredicateInit (some .numeric) (.lit (.str "x")) = .error .typeError
    ∧ binaryPredicateInit (some .numeric)
        (.deferred fun _ => .str "x") = .ok ()
    ∧ evalContextOperand ⟨fun _ => .null⟩ (some .numeric)
        (.deferred fun _ => .str "x") = .error .typeError := by
  refine ⟨by simp [isInstanceOf, isNumType], ?_, ?_, ?_⟩
  · exact operand_type_enforcement.1 .numeric (.str "x")
      (by simp [isInstanceOf, isNumType])
  · exact operand_type_enforcement.2.1 .numeric _
  · exact operand_type_enforcement.2.2.1 ⟨fun _ => .null⟩ .numeric _
      (by simp [isInstanceOf, isNumType])

/-- C10: `ContainsPredicate` and `EquivalentPredicate` never raise the
fatal unsupported-shape error on a `Bool` value, because `bool` is a
subclass of `int` and booleans are dispatched to the numeric-equality
branch; in particular `Equivalent(1)` on `True` is valid. -/
theorem bool_numeric_dispatch :
    (∀ (op : JsonValue) (b : Bool),
      containsCall op (.bool b) ≠ .error .notImplemented)
    ∧ (∀ (op : JsonValue) (b : Bool),
      equivalentCall op (.bool b) ≠ .error .notImplemented)
    ∧ equivalentCall (.int 1) (.bool true) =
        .ok (.pathValue true "" (.bool true)) := by
  refine ⟨?_, ?_, ?_⟩
  · intro op b
    rw [containsCall.eq_def]
    have hb : isNumType (.bool b) = true := rfl
    cases h : isNumType op <;> simp [numEqCall, h, hb]
  · intro op b
    have hb : isNumType (.bool b) = true := rfl
    cases h : isNumType op <;> simp [equivalentCall, numEqCall, h, hb]
  · simp [equivalentCall, numEqCall, isNumType, pyEq, numVal]

/-- C1: the `ContainsPredicate` dispatch matrix as implemented.  String,
dict, array and `int` values behave as documented (substring, dict subset,
list subset / existential recursion, numeric equality), but because
`isinstance(value, int or long or float)` tests only the class `int`,
every `float` or `long` value raises the fatal `NotImplementedError`
instead of getting numeric-equality semantics, contradicting the class's
own docstring (`numeric | '=='`). -/
theorem contains_dispatch_matrix :
    (∀ (op : JsonValue) (n : Int),
      containsCall op (.float n) = .error .notImplemented
      ∧ containsCall op (.long n) = .error .notImplemented)
    ∧ containsCall (.int 2) (.int 5) = .ok (.pathValue false "" (.int 5))
    ∧ containsCall (.int 2) (.int 2) = .ok (.pathValue true "" (.int 2))
    ∧ containsCall (.str "ab") (.str "xaby") =
        .ok (.pathValue true "" (.str "xaby"))
    ∧ containsCall (.obj [("k", .int 1)]) (.obj [("k", .int 1), ("j", .int 2)]) =
        .ok (.pathValue true "" (.obj [("k", .int 1), ("j", .int 2)]))
    ∧ containsCall (.arr [.int 1, .int 2]) (.arr [.int 1, .int 2, .int 3]) =
        .ok (.pathValue true "" (.arr [.int 1, .int 2, .int 3]))
    ∧ containsCall (.int 1) (.arr [.arr [.int 1, .int 2], .int 5]) =
        .ok (.pathValue true "" (.int 1))
    ∧ containsCall (.int 2) (.arr [.int 3, .int 4]) =
        .ok (.pathValue false "" (.arr [.int 3, .int 4]))
    ∧ containsCall (.int 2) .null = .error .notImplemented := by
  refine ⟨fun op n => ⟨?_, ?_⟩, ?_, ?_, ?_, ?_, ?_, ?_, ?_, ?_⟩
  · rw [containsCall.eq_def]
  · rw [containsCall.eq_def]
  · simp [containsCall, numEqCall, isNumType, pyEq, numVal]
  · simp [containsCall, numEqCall, isNumType, pyEq, numVal]
  · simp [containsCall, strSubstrCall, strContains, charsContain]
  · simp [containsCall, dictSubsetCall, isSubset, isSubsetFields, jsonLookupS,
      isObjType, isArrType, pyEq, numVal]
  · simp [containsCall, listSubsetCall, listSubsetElems, verifyElem,
      isScalarInstance, isNumType, isStrType, pyMem, pyEq, numVal]
  · simp [containsCall, containsSearch, numEqCall, isNumType, pyEq, numVal,
      isValid]
  · simp [containsCall, containsSearch, numEqCall, isNumType, pyEq, numVal,
      isValid]
  · rw [containsCall.eq_def]

theorem unexpectedKeyErrors_mem {operandKeys : List String}
    {fields : List (String × JsonValue)} {k : String} {v : JsonValue}
    (hmem : (k, v) ∈ fields) (habs : ∀ key ∈ operandKeys, key ≠ k) :
    (k, PredResult.unexpectedPath k v) ∈ unexpectedKeyErrors operandKeys fields := by
  apply List.mem_filterMap.mpr
  refine ⟨(k, v), hmem, ?_⟩
  have : operandKeys.any (fun key => key == k) = false := by
    rcases Bool.eq_false_or_eq_true (operandKeys.any (fun key => key == k)) with h | h
    · obtain ⟨key, hk, he⟩ := List.any_eq_true.mp h
      exact absurd (by simpa using he) (habs key hk)
    · exact h
  simp [this]

theorem unexpectedKeyErrors_nil {operandKeys : List String}
    {fields : List (String × JsonValue)}
    (hcov : ∀ kv ∈ fields, ∃ key ∈ operandKeys, key = kv.1) :
    unexpectedKeyErrors operandKeys fields = [] := by
  apply List.filterMap_eq_nil_iff.mpr
  intro kv hkv
  obtain ⟨key, hk, he⟩ := hcov kv hkv
  have : operandKeys.any (fun k0 => k0 == kv.1) = true :=
    List.any_eq_true.mpr ⟨key, hk, by simp [he]⟩
  simp [unexpectedKeyErrors, this]

/-- C4: `DictMatchesPredicate` strictness: with `strict=true` every value
key absent from the operand's pattern map makes the result invalid and is
recorded as an `UnexpectedPathError` entry in the aggregate; with
`strict=false` the same inputs are valid whenever every per-field result is
valid; and with `strict=true` but no unexpected keys the result is exactly
the non-strict result, with no strictness entries added. -/
theorem dictMatches_strictness :
    (∀ (operand : List (String × (JsonValue → PredResult)))
       (fields : List (String × JsonValue)) (k : String) (v : JsonValue),
       (k, v) ∈ fields → (∀ p ∈ operand, p.1 ≠ k) →
       isValid (dictMatchesCall operand true (.obj fields)) = false
       ∧ (k, PredResult.unexpectedPath k v) ∈
           keyedEntries (dictMatchesCall operand true (.obj fields)))
    ∧ (∀ (operand : List (String × (JsonValue → PredResult)))
        (fields : List (String × JsonValue)),
        (∀ kp ∈ operand, isValid (pathPredicateApply kp.1 kp.2 (.obj fields)) = true) →
        isValid (dictMatchesCall operand false (.obj fields)) = true)
    ∧ (∀ (operand : List (String × (JsonValue → PredResult)))
        (fields : List (String × JsonValue)),
        (∀ kv ∈ fields, ∃ kp ∈ operand, kp.1 = kv.1) →
        dictMatchesCall operand true (.obj fields) =
          dictMatchesCall operand false (.obj fields)) := by
  refine ⟨?_, ?_, ?_⟩
  · intro operand fields k v hmem habs
    have herr : (k, PredResult.unexpectedPath k v) ∈
        unexpectedKeyErrors (operand.map Prod.fst) fields :=
      unexpectedKeyErrors_mem hmem (by
        intro key hk
        obtain ⟨p, hp, he⟩ := List.mem_map.mp hk
        exact he ▸ habs p hp)
    have hne : (unexpectedKeyErrors (operand.map Prod.fst) fields).isEmpty = false := by
      cases he : unexpectedKeyErrors (operand.map Prod.fst) fields with
      | nil => rw [he] at herr; cases herr
      | cons a l => simp
    constructor
    · simp [dictMatchesCall, hne, isValid]
    · simp only [dictMatchesCall, hne]
      simp [keyedEntries, herr]
  · intro operand fields hall
    have : (operand.map
        (fun kp => (kp.1, pathPredicateApply kp.1 kp.2 (.obj fields)))).all
          (fun kr => isValid kr.2) = true := by
      apply List.all_eq_true.mpr
      intro kr hkr
      obtain ⟨kp, hkp, he⟩ := List.mem_map.mp hkr
      cases he
      exact hall kp hkp
    simp only [dictMatchesCall]
    rw [this]
    rfl
  · intro operand fields hcov
    have hnil : unexpectedKeyErrors (operand.map Prod.fst) fields = [] :=
      unexpectedKeyErrors_nil (by
        intro kv hkv
        obtain ⟨kp, hkp, he⟩ := hcov kv hkv
        exact ⟨kp.1, List.mem_map_of_mem _ hkp, he⟩)
    simp [dictMatchesCall, hnil]

theorem dictMatches_strictness_witness :
    isValid (dictMatchesCall
        [("k", fun v => .pathValue (pyEq v (.int 1)) "" v)] true
        (.obj [("k", .int 1), ("j", .int 5)])) = false
    ∧ ("j", PredResult.unexpectedPath "j" (.int 5)) ∈
        keyedEntries (dictMatchesCall
          [("k", fun v => .pathValue (pyEq v (.int 1)) "" v)] true
          (.obj [("k", .int 1), ("j", .int 5)]))
    ∧ isValid (dictMatchesCall
        [("k", fun v => .pathValue (pyEq v (.int 1)) "" v)] false
        (.obj [("k", .int 1), ("j", .int 5)])) = true := by
  have h1 := dictMatches_strictness.1
    [("k", fun v => .pathValue (pyEq v (.int 1)) "" v)]
    [("k", .int 1), ("j", .int 5)] "j" (.int 5) (by simp)
    (by
      intro p hp
      rcases List.mem_singleton.mp hp with h
      simp [h])
  have h2 := dictMatches_strictness.2.1
    [("k", fun v => .pathValue (pyEq v (.int 1)) "" v)]
    [("k", .int 1), ("j", .int 5)]
    (by
      intro kp hkp
      rcases List.mem_singleton.mp hkp with h
      subst h
      simp [pathPredicateApply, jsonLookup, jsonLookupS, withTargetPath,
        isValid, pyEq, numVal])
  exact ⟨h1.1, h1.2, h2⟩

theorem isValid_sequenced (v : Bool) (es : List PredResult) :
    isValid (.sequenced v es) = v := rfl

theorem isValid_keyed (v : Bool) (es : List (String × PredResult)) :
    isValid (.keyed v es) = v := rfl

theorem mapPredicate_count_invalid {p : JsonValue → PredResult}
    {elems : List JsonValue}
    (h : 2 ≤ elems.countP (fun e => isValid (p e))) :
    isValid (mapPredicate p (some 1) elems) = false := by
  have hn : ((elems.map p).filter isValid).length =
      elems.countP (fun e => isValid (p e)) := by
    rw [← List.countP_eq_length_filter, List.countP_map]
    rfl
  have hd : decide (((elems.map p).filter isValid).length ≤ 1) = false := by
    rw [hn]
    exact decide_eq_false (by omega)
  simp only [mapPredicate, isValid_sequenced]
  rw [hd]
  simp

/-- C2: `ListMatchesPredicate` with `unique=true` bounds matches per
pattern, not as a one-to-one assignment: whenever a single pattern is
satisfied by at least two elements the result is invalid, while one
element satisfying several distinct patterns is not by itself a failure
(two elements each matching its own disjoint pattern yield a valid
result). -/
theorem listMatches_unique_per_pattern :
    (∀ (patterns : List (JsonValue → PredResult)) (elems : List JsonValue)
       (p : JsonValue → PredResult) (strict : Bool), p ∈ patterns →
       2 ≤ elems.countP (fun e => isValid (p e)) →
       isValid (listMatchesCall patterns strict true (.arr elems)) = false)
    ∧ isValid (listMatchesCall [fun v => .pathValue (pyEq v (.int 1)) "" v]
        false true (.arr [.int 1, .int 1])) = false
    ∧ isValid (listMatchesCall
        [fun v => .pathValue (pyEq v (.int 1)) "" v,
         fun v => .pathValue (pyEq v (.int 2)) "" v]
        false true (.arr [.int 1, .int 2])) = true
    ∧ isValid (listMatchesCall
        [fun v => .pathValue (pyEq v (.int 1)) "" v,
         fun v => .pathValue (isNumType v) "" v]
        false true (.arr [.int 1])) = true := by
  refine ⟨?_, ?_, ?_, ?_⟩
  · intro patterns elems p strict hp hcount
    have hinv := mapPredicate_count_invalid hcount
    have hall : (patterns.map
        (fun q => mapPredicate q (some 1) elems)).all isValid = false := by
      rcases Bool.eq_false_or_eq_true
        ((patterns.map (fun q => mapPredicate q (some 1) elems)).all isValid)
        with h | h
      · have := List.all_eq_true.mp h (mapPredicate p (some 1) elems)
          (List.mem_map_of_mem _ hp)
        rw [this] at hinv
        cases hinv
      · exact h
    simp only [listMatchesCall]
    split <;> (try split) <;> (try split) <;>
      (try exact absurd trivial ‹¬True›) <;>
      simp only [isValid_sequenced] <;> try exact hall
  · simp [listMatchesCall, mapPredicate, isValid, pyEq, numVal]
  · simp [listMatchesCall, mapPredicate, isValid, pyEq, numVal]
  · simp [listMatchesCall, mapPredicate, isValid, pyEq, numVal, isNumType]

theorem listMatches_unique_per_pattern_witness :
    isValid (listMatchesCall
      [fun v => .pathValue (pyEq v (.int 7)) "" v]
      true true (.arr [.int 7, .int 7])) = false := by
  apply listMatches_unique_per_pattern.1 _ _
    (fun v => .pathValue (pyEq v (.int 7)) "" v) true (by simp)
  simp [List.countP_cons, isValid, pyEq, numVal]

theorem resultAt_mapPredicate {p : JsonValue → PredResult} {maxc : Option Nat}
    {elems : List JsonValue} {i : Nat} {e : JsonValue}
    (h : elems.get? i = some e) :
    resultAt (mapPredicate p maxc elems) i = isValid (p e) := by
  rw [List.get?_eq_getElem?] at h
  simp [resultAt, mapPredicate, seqEntries, List.getElem?_map, h]

theorem bumpCounts_get {r : PredResult} :
    ∀ (cs : List Nat) (j i : Nat),
      (bumpCounts r j cs).get? i =
        (cs.get? i).map (fun c => c + if resultAt r (j + i) then 1 else 0) := by
  intro cs
  induction cs with
  | nil => intro j i; simp [bumpCounts]
  | cons c cs ih =>
    intro j i
    cases i with
    | zero => simp [bumpCounts]
    | succ i =>
      simp only [bumpCounts, List.get?]
      rw [ih (j + 1) i]
      have : j + 1 + i = j + (i + 1) := by omega
      rw [this]

theorem foldl_bumpCounts_get {i : Nat} :
    ∀ (rs : List PredResult) (acc : List Nat),
      ((rs.foldl (fun a r => bumpCounts r 0 a) acc).get? i) =
        (acc.get? i).map (fun c => c + rs.countP (fun r => resultAt r i)) := by
  intro rs
  induction rs with
  | nil =>
    intro acc
    simp only [List.foldl_nil, List.countP_nil]
    cases acc.get? i <;> simp
  | cons r rs ih =>
    intro acc
    simp only [List.foldl_cons]
    rw [ih (bumpCounts r 0 acc), bumpCounts_get acc 0 i]
    have hz : (0 : Nat) + i = i := by omega
    rw [hz, List.countP_cons]
    cases acc.get? i with
    | none => simp
    | some c =>
      simp only [Option.map_some']
      congr 1
      rcases Bool.eq_false_or_eq_true (resultAt r i) with h | h <;> (simp [h]; try omega)

theorem replicate_get {n i : Nat} (h : i < n) :
    (List.replicate n (0 : Nat)).get? i = some 0 := by
  induction n generalizing i with
  | zero => omega
  | succ n ih =>
    cases i with
    | zero => simp [List.replicate]
    | succ i =>
      simp only [List.replicate, List.get?]
      exact ih (by omega)

theorem listStrictErrors_mem :
    ∀ (cs : List Nat) (es : List JsonValue) (j i : Nat) (e : JsonValue),
      cs.get? i = some 0 → es.get? i = some e →
      PredResult.unexpectedPath (pathIndex (j + i)) e ∈ listStrictErrors j cs es := by
  intro cs
  induction cs with
  | nil => intro es j i e hc; simp at hc
  | cons c cs ih =>
    intro es j i e hc he
    cases es with
    | nil => simp at he
    | cons e0 es =>
      cases i with
      | zero =>
        simp only [List.get?, Option.some_inj] at hc he
        subst he
        simp only [listStrictErrors, hc]
        simp
      | succ i =>
        simp only [List.get?] at hc he
        have := ih es (j + 1) i e hc he
        have harith : j + 1 + i = j + (i + 1) := by omega
        rw [harith] at this
        simp only [listStrictErrors]
        exact List.mem_append_right _ this

theorem isEmpty_false_of_mem {α : Type} {a : α} {l : List α} (h : a ∈ l) :
    l.isEmpty = false := by
  cases l with
  | nil => cases h
  | cons b t => simp

theorem countP_congr_eq {α : Type} {p q : α → Bool} :
    ∀ {l : List α}, (∀ a ∈ l, p a = q a) → l.countP p = l.countP q := by
  intro l
  induction l with
  | nil => intro _; rfl
  | cons a l ih =>
    intro h
    rw [List.countP_cons, List.countP_cons, h a (List.mem_cons_self _ _),
      ih (fun b hb => h b (List.mem_cons_of_mem _ hb))]

/-- C3: `ListMatchesPredicate` with `strict=true`: every value index whose
matched counter is zero after all patterns yields an `UnexpectedPathError`
on path `[index]` appended to the aggregate, and the result is invalid; in
particular `[p1]` with `strict=true` over a two-element list whose second
element matches nothing is invalid with an `UnexpectedPathError` on `[1]`. -/
theorem listMatches_strict_unmatched_index :
    (∀ (patterns : List (JsonValue → PredResult)) (unique : Bool)
       (elems : List JsonValue) (i : Nat) (e : JsonValue),
       elems.get? i = some e →
       patterns.countP (fun p => isValid (p e)) = 0 →
       isValid (listMatchesCall patterns true unique (.arr elems)) = false
       ∧ PredResult.unexpectedPath (pathIndex i) e ∈
           seqEntries (listMatchesCall patterns true unique (.arr elems)))
    ∧ (isValid (listMatchesCall [fun v => .pathValue (pyEq v (.int 1)) "" v]
         true false (.arr [.int 1, .int 2])) = false
       ∧ PredResult.unexpectedPath "[1]" (.int 2) ∈
           seqEntries (listMatchesCall
             [fun v => .pathValue (pyEq v (.int 1)) "" v]
             true false (.arr [.int 1, .int 2]))) := by
  constructor
  · intro patterns unique elems i e hget hcnt
    have hlt : i < elems.length := by
      by_contra hc
      have hle : elems.length ≤ i := Nat.le_of_not_lt hc
      rw [List.get?_eq_none.mpr hle] at hget
      cases hget
    have hcounts : (List.foldl (fun a r => bumpCounts r 0 a)
        (List.replicate elems.length 0)
        (patterns.map
          (fun p => mapPredicate p (if unique then some 1 else none) elems))).get? i =
        some 0 := by
      rw [foldl_bumpCounts_get, replicate_get hlt, List.countP_map]
      have heq : patterns.countP
          ((fun r => resultAt r i) ∘
            (fun p => mapPredicate p (if unique then some 1 else none) elems)) =
          patterns.countP (fun p => isValid (p e)) := by
        apply countP_congr_eq
        intro q hq
        exact resultAt_mapPredicate hget
      rw [heq, hcnt]
      simp
    have hmem := listStrictErrors_mem _ elems 0 i e hcounts hget
    rw [Nat.zero_add] at hmem
    have hEmp := isEmpty_false_of_mem hmem
    constructor
    · simp only [listMatchesCall, hEmp]
      simp [isValid_sequenced]
    · simp only [listMatchesCall, hEmp]
      simp only [Bool.false_eq_true, if_false, if_true, seqEntries]
      exact List.mem_append_right _ hmem
  · constructor
    · simp [listMatchesCall, mapPredicate, isValid, pyEq, numVal, bumpCounts,
        resultAt, seqEntries, listStrictErrors, pathIndex]
    · have hpi : pathIndex 1 = "[1]" := rfl
      rw [← hpi]
      simp [listMatchesCall, mapPredicate, isValid, pyEq, numVal, bumpCounts,
        resultAt, seqEntries, listStrictErrors]

theorem listMatches_strict_unmatched_index_witness :
    isValid (listMatchesCall [fun v => .pathValue (pyEq v (.int 3)) "" v]
      true true (.arr [.int 3, .int 4])) = false
    ∧ PredResult.unexpectedPath (pathIndex 1) (.int 4) ∈
        seqEntries (listMatchesCall [fun v => .pathValue (pyEq v (.int 3)) "" v]
          true true (.arr [.int 3, .int 4])) :=
  listMatches_strict_unmatched_index.1
    [fun v => .pathValue (pyEq v (.int 3)) "" v] true [.int 3, .int 4] 1 (.int 4)
    (by rfl)
    (by simp [List.countP_cons, isValid, pyEq, numVal])

theorem pyMem_of_mem {e : JsonValue} {l : List JsonValue}
    (hs : isScalarInstance e = true) (h : e ∈ l) : pyMem e l = true := by
  induction l with
  | nil => cases h
  | cons y ys ih =>
    rcases List.mem_cons.mp h with h1 | h2
    · subst h1
      simp [pyMem, pyEq_self_scalar hs]
    · simp [pyMem, ih h2]

theorem verifyElem_scalar_mem {e : JsonValue} {vl : List JsonValue}
    (hs : isScalarInstance e = true) (h : e ∈ vl) :
    verifyElem false e vl = .ok true := by
  rw [verifyElem.eq_def]
  simp [hs, pyMem_of_mem hs h]

theorem listSubsetElems_all_mem :
    ∀ (es vl : List JsonValue),
      (∀ e ∈ es, isScalarInstance e = true ∧ e ∈ vl) →
      listSubsetElems false es vl = .ok (.pathValue true "" (.arr vl)) := by
  intro es
  induction es with
  | nil =>
    intro vl _
    rw [listSubsetElems.eq_def]
  | cons e rest ih =>
    intro vl h
    have he := h e (List.mem_cons_self _ _)
    conv_lhs => rw [listSubsetElems.eq_def]
    dsimp only
    rw [verifyElem_scalar_mem he.1 he.2]
    dsimp only
    exact ih vl (fun x hx => h x (List.mem_cons_of_mem _ hx))

theorem listSubset_refl_scalars {es : List JsonValue}
    (h : es.all isScalarInstance = true) :
    listSubsetCall false (.arr es) (.arr es) =
      .ok (.pathValue true "" (.arr es)) := by
  rw [listSubsetCall.eq_def]
  exact listSubsetElems_all_mem es es
    (fun e he => ⟨List.all_eq_true.mp h e he, he⟩)

theorem goodFields_mem {bf : List (String × JsonValue)} {k : String}
    {v : JsonValue} (hgf : goodFields bf = true) (h : (k, v) ∈ bf) :
    Good v = true := by
  induction bf with
  | nil => cases h
  | cons p rest ih =>
    obtain ⟨k', v'⟩ := p
    rw [goodFields.eq_def] at hgf
    simp only [Bool.and_eq_true] at hgf
    rcases List.mem_cons.mp h with h1 | h2
    · cases h1
      exact hgf.1
    · exact ih hgf.2 h2

theorem isSubsetFields_pass_of_step {bf : List (String × JsonValue)}
    (step : ∀ (path name : String) (v : JsonValue)
      (rest : List (String × JsonValue)), (name, v) ∈ bf →
      isSubsetFields path ((name, v) :: rest) bf = isSubsetFields path rest bf) :
    ∀ (path : String) (a : List (String × JsonValue)), (∀ p ∈ a, p ∈ bf) →
      isSubsetFields path a bf = .ok (.pathValue true path (.obj bf)) := by
  intro path a
  induction a with
  | nil =>
    intro _
    rw [isSubsetFields.eq_def]
  | cons p rest ih =>
    intro ha
    obtain ⟨name, v⟩ := p
    rw [step path name v rest (ha _ (List.mem_cons_self _ _))]
    exact ih (fun q hq => ha q (List.mem_cons_of_mem _ hq))

theorem isSubsetFields_step :
    ∀ (n : Nat) (bf : List (String × JsonValue)), sizeOf bf ≤ n →
      keysNodup bf = true → goodFields bf = true →
      ∀ (path name : String) (v : JsonValue)
        (rest : List (String × JsonValue)), (name, v) ∈ bf →
        isSubsetFields path ((name, v) :: rest) bf =
          isSubsetFields path rest bf := by
  intro n
  induction n with
  | zero =>
    intro bf hsz
    exfalso
    cases bf <;> simp at hsz
  | succ n ihn =>
    intro bf hsz hnd hgf path name v rest hmem
    obtain ⟨hp, hS⟩ := jsonLookupS_mem_nodup hnd hmem
    have hgood : Good v = true := goodFields_mem hgf hmem
    conv_lhs => rw [isSubsetFields.eq_def]
    dsimp only
    rw [hS]
    dsimp only
    cases v with
    | obj vfs =>
      have hg2 : keysNodup vfs = true ∧ goodFields vfs = true := by
        rw [Good.eq_def] at hgood
        simpa using hgood
      have hsz2 : sizeOf vfs ≤ n := by
        have h1 := sizeOf_lt_of_mem_fields hmem
        simp at h1
        omega
      have hpass := isSubsetFields_pass_of_step
        (fun path' name' v' rest' hm =>
          ihn vfs hsz2 hg2.1 hg2.2 path' name' v' rest' hm)
        (joinPath path name) vfs (fun q hq => hq)
      rw [if_pos (show isObjType (.obj vfs) = true from rfl)]
      rw [isSubset.eq_def]
      dsimp only
      rw [hpass]
      rfl
    | arr es =>
      have hes : es.all isScalarInstance = true := by
        rw [Good.eq_def] at hgood
        simpa using hgood
      rw [if_neg (show ¬isObjType (.arr es) = true by simp [isObjType]),
        if_pos (show isArrType (.arr es) = true from rfl)]
      rw [subFieldList.eq_def]
      dsimp only
      rw [listSubset_refl_scalars hes]
      rfl
    | str sv =>
      rw [if_neg (show ¬isObjType (.str sv) = true by simp [isObjType]),
        if_neg (show ¬isArrType (.str sv) = true by simp [isArrType]),
        if_pos (@pyEq_self_not_container (.str sv) rfl rfl)]
    | int nv =>
      rw [if_neg (show ¬isObjType (.int nv) = true by simp [isObjType]),
        if_neg (show ¬isArrType (.int nv) = true by simp [isArrType]),
        if_pos (@pyEq_self_not_container (.int nv) rfl rfl)]
    | long nv =>
      rw [if_neg (show ¬isObjType (.long nv) = true by simp [isObjType]),
        if_neg (show ¬isArrType (.long nv) = true by simp [isArrType]),
        if_pos (@pyEq_self_not_container (.long nv) rfl rfl)]
    | float nv =>
      rw [if_neg (show ¬isObjType (.float nv) = true by simp [isObjType]),
        if_neg (show ¬isArrType (.float nv) = true by simp [isArrType]),
        if_pos (@pyEq_self_not_container (.float nv) rfl rfl)]
    | bool bv =>
      rw [if_neg (show ¬isObjType (.bool bv) = true by simp [isObjType]),
        if_neg (show ¬isArrType (.bool bv) = true by simp [isArrType]),
        if_pos (@pyEq_self_not_container (.bool bv) rfl rfl)]
    | null =>
      rw [if_neg (show ¬isObjType JsonValue.null = true by simp [isObjType]),
        if_neg (show ¬isArrType JsonValue.null = true by simp [isArrType]),
        if_pos (@pyEq_self_not_container JsonValue.null rfl rfl)]

/-- C5 (amended): for every Object `B` with unique keys whose arrays
contain only scalar elements, and every non-empty `A` formed by copying a
subset of `B`'s fields unchanged, `DictSubset(A)` on `B` is valid, and the
success is a single `PathValueResult` for the whole structure whose
`target_path` is the root path passed in, not a per-field aggregate.  (As
stated over arbitrary Objects the claim fails: an array containing `null`
makes `_verify_elem` raise a fatal `TypeError`, see the counterexample.) -/
theorem dictSubset_subcopy_valid :
    ∀ (bf a : List (String × JsonValue)), Good (.obj bf) = true →
      a ≠ [] → (∀ p ∈ a, p ∈ bf) →
      dictSubsetCall (.obj a) (.obj bf) =
        .ok (.pathValue true "" (.obj bf)) := by
  intro bf a hg _ ha
  have hparts : keysNodup bf = true ∧ goodFields bf = true := by
    rw [Good.eq_def] at hg
    simpa using hg
  rw [dictSubsetCall.eq_def]
  dsimp only
  rw [isSubset.eq_def]
  dsimp only
  exact isSubsetFields_pass_of_step
    (fun path name v rest hm =>
      isSubsetFields_step (sizeOf bf) bf (Nat.le_refl _) hparts.1 hparts.2
        path name v rest hm)
    "" a ha

/-- C5 (counterexample): the claim as stated over every Object fails: with
`B = {"k": [null]}` and `A = B` (a copy of all of `B`'s keys unchanged),
`DictSubset(A)` on `B` does not return a valid result but raises a fatal
`TypeError`, because `_verify_elem` has no case for a `None` array
element. -/
theorem dictSubset_subcopy_counterexample :
    dictSubsetCall (.obj [("k", .arr [.null])]) (.obj [("k", .arr [.null])]) =
      .error .typeError := by
  simp [dictSubsetCall, isSubset, isSubsetFields, jsonLookupS, isObjType,
    isArrType, subFieldList, listSubsetCall, listSubsetElems, verifyElem,
    isScalarInstance, isNumType, isStrType]

theorem dictSubset_subcopy_valid_witness :
    dictSubsetCall (.obj [("j", .obj [("m", .int 2)])])
        (.obj [("k", .int 1), ("j", .obj [("m", .int 2)])]) =
      .ok (.pathValue true ""
        (.obj [("k", .int 1), ("j", .obj [("m", .int 2)])])) := by
  apply dictSubset_subcopy_valid
  · simp [Good, goodFields, keysNodup]
  · simp
  · intro p hp
    rcases List.mem_singleton.mp hp with h
    simp [h]

theorem isSubsetFields_walk {bf : List (String × JsonValue)}
    (step : ∀ (path name : String) (v : JsonValue)
      (rest : List (String × JsonValue)), (name, v) ∈ bf →
      isSubsetFields path ((name, v) :: rest) bf = isSubsetFields path rest bf) :
    ∀ (path : String) (pre tail : List (String × JsonValue)),
      (∀ p ∈ pre, p ∈ bf) →
      isSubsetFields path (pre ++ tail) bf = isSubsetFields path tail bf := by
  intro path pre
  induction pre with
  | nil => intro tail _; simp
  | cons p rest ih =>
    intro tail hpre
    obtain ⟨name, v⟩ := p
    rw [List.cons_append, step path name v (rest ++ tail)
      (hpre _ (List.mem_cons_self _ _))]
    exact ih tail (fun q hq => hpre q (List.mem_cons_of_mem _ hq))

theorem scalarMismatch_shape {k : String} {u w : JsonValue}
    (hwo : isObjType w = false) (hwa : isArrType w = false) :
    isValid (scalarMismatch k u w) = false
    ∧ targetPathOf (scalarMismatch k u w) = k := by
  cases w with
  | obj fs => simp [isObjType] at hwo
  | arr es => simp [isArrType] at hwa
  | null => simp [scalarMismatch, isValid, targetPathOf]
  | str sv =>
    cases h : isStrType u <;> simp [scalarMismatch, h, isValid, targetPathOf]
  | int nv =>
    cases h : isNumType u <;> simp [scalarMismatch, h, isValid, targetPathOf]
  | long nv =>
    cases h : isNumType u <;> simp [scalarMismatch, h, isValid, targetPathOf]
  | float nv =>
    cases h : isNumType u <;> simp [scalarMismatch, h, isValid, targetPathOf]
  | bool bv =>
    cases h : isNumType u <;> simp [scalarMismatch, h, isValid, targetPathOf]

theorem isSubsetFields_missing_first {path k : String} {u : JsonValue}
    {rest bf : List (String × JsonValue)} (h : jsonLookup k bf = none) :
    isSubsetFields path ((k, u) :: rest) bf =
      .ok (.missingPath (joinPath path k)) := by
  have hS := jsonLookupS_of_lookup_none h
  rw [isSubsetFields.eq_def]
  dsimp only
  rw [hS]

theorem isSubsetFields_scalar_mismatch {path k : String} {u w : JsonValue}
    {rest bf : List (String × JsonValue)} (h : jsonLookup k bf = some w)
    (hwo : isObjType w = false) (hwa : isArrType w = false)
    (hne : pyEq u w = false) :
    isSubsetFields path ((k, u) :: rest) bf =
      .ok (scalarMismatch (joinPath path k) u w) := by
  obtain ⟨hp, hS⟩ := jsonLookupS_of_lookup h
  rw [isSubsetFields.eq_def]
  dsimp only
  rw [hS]
  dsimp only
  rw [if_neg (by simp [hwo]), if_neg (by simp [hwa]), if_neg (by simp [hne])]

/-- C6: `DictSubsetPredicate` short-circuits on the first failure: an
operand field missing from the value yields a `MissingPathError`
immediately, with the remaining fields unchecked (the result does not
depend on them); and for a well-formed `B`, mutating exactly one scalar
field of a sub-copy `A` to a value that compares unequal makes
`DictSubset(A)` on `B` invalid with `target_path` equal to that field's
path, while a field of `A` whose key is absent from `B` yields a
`MissingPathError` instead. -/
theorem dictSubset_failure_localization :
    (∀ (path k : String) (u : JsonValue)
       (rest bf : List (String × JsonValue)), jsonLookup k bf = none →
       isSubsetFields path ((k, u) :: rest) bf =
         .ok (.missingPath (joinPath path k)))
    ∧ (∀ (bf pre post : List (String × JsonValue)) (k : String)
        (u w : JsonValue), Good (.obj bf) = true → (∀ p ∈ pre, p ∈ bf) →
        jsonLookup k bf = some w →
        isObjType w = false → isArrType w = false → pyEq u w = false →
        dictSubsetCall (.obj (pre ++ (k, u) :: post)) (.obj bf) =
            .ok (scalarMismatch k u w)
          ∧ isValid (scalarMismatch k u w) = false
          ∧ targetPathOf (scalarMismatch k u w) = k)
    ∧ (∀ (bf pre post : List (String × JsonValue)) (k : String)
        (u : JsonValue), Good (.obj bf) = true → (∀ p ∈ pre, p ∈ bf) →
        jsonLookup k bf = none →
        dictSubsetCall (.obj (pre ++ (k, u) :: post)) (.obj bf) =
          .ok (.missingPath k)) := by
  refine ⟨?_, ?_, ?_⟩
  · intro path k u rest bf h
    exact isSubsetFields_missing_first h
  · intro bf pre post k u w hg hpre hlook hwo hwa hne
    have hparts : keysNodup bf = true ∧ goodFields bf = true := by
      rw [Good.eq_def] at hg
      simpa using hg
    have hstep := fun path name v rest hm =>
      isSubsetFields_step (sizeOf bf) bf (Nat.le_refl _) hparts.1 hparts.2
        path name v rest hm
    have hshape := scalarMismatch_shape (k := k) (u := u) hwo hwa
    refine ⟨?_, hshape.1, hshape.2⟩
    rw [dictSubsetCall.eq_def]
    dsimp only
    rw [isSubset.eq_def]
    dsimp only
    rw [isSubsetFields_walk hstep "" pre _ hpre,
      isSubsetFields_scalar_mismatch hlook hwo hwa hne]
    have : joinPath "" k = k := by simp [joinPath]
    rw [this]
  · intro bf pre post k u hg hpre hlook
    have hparts : keysNodup bf = true ∧ goodFields bf = true := by
      rw [Good.eq_def] at hg
      simpa using hg
    have hstep := fun path name v rest hm =>
      isSubsetFields_step (sizeOf bf) bf (Nat.le_refl _) hparts.1 hparts.2
        path name v rest hm
    rw [dictSubsetCall.eq_def]
    dsimp only
    rw [isSubset.eq_def]
    dsimp only
    rw [isSubsetFields_walk hstep "" pre _ hpre,
      isSubsetFields_missing_first hlook]
    have : joinPath "" k = k := by simp [joinPath]
    rw [this]

/-- C6 (counterexample): over arbitrary Objects the mutation claim fails:
with `B = {"a": [null], "k": 1}` and `A` the copy of `B` with the scalar
field `k` mutated to `2`, `DictSubset(A)` on `B` does not return an
invalid result targeting `k` but raises a fatal `TypeError` while
re-verifying the earlier array field. -/
theorem dictSubset_mutation_counterexample :
    dictSubsetCall
        (.obj [("a", .arr [.null]), ("k", .int 2)])
        (.obj [("a", .arr [.null]), ("k", .int 1)]) =
      .error .typeError := by
  simp [dictSubsetCall, isSubset, isSubsetFields, jsonLookupS, isObjType,
    isArrType, subFieldList, listSubsetCall, listSubsetElems, verifyElem,
    isScalarInstance, isNumType, isStrType]

theorem dictSubset_failure_localization_witness :
    isSubsetFields "" [("z", .int 1)] [("k", .int 5)] =
      .ok (.missingPath "z")
    ∧ dictSubsetCall
        (.obj [("x", .str "s"), ("k", .int 2)])
        (.obj [("x", .str "s"), ("k", .int 1)]) =
      .ok (scalarMismatch "k" (.int 2) (.int 1))
    ∧ isValid (scalarMismatch "k" (.int 2) (.int 1)) = false
    ∧ targetPathOf (scalarMismatch "k" (.int 2) (.int 1)) = "k"
    ∧ dictSubsetCall
        (.obj [("x", .str "s"), ("gone", .int 2)])
        (.obj [("x", .str "s"), ("k", .int 1)]) =
      .ok (.missingPath "gone") := by
  have h1 := dictSubset_failure_localization.1 "" "z" (.int 1) []
    [("k", .int 5)] (by simp [jsonLookup, jsonLookupS])
  have h2 := dictSubset_failure_localization.2.1
    [("x", .str "s"), ("k", .int 1)] [("x", .str "s")] [] "k"
    (.int 2) (.int 1)
    (by simp [Good, goodFields, keysNodup])
    (by intro p hp; rcases List.mem_singleton.mp hp with h; simp [h])
    (by simp [jsonLookup, jsonLookupS])
    rfl rfl
    (by simp [pyEq, numVal])
  have h3 := dictSubset_failure_localization.2.2
    [("x", .str "s"), ("k", .int 1)] [("x", .str "s")] [] "gone" (.int 2)
    (by simp [Good, goodFields, keysNodup])
    (by intro p hp; rcases List.mem_singleton.mp hp with h; simp [h])
    (by simp [jsonLookup, jsonLookupS])
  have hjoin : joinPath "" "z" = "z" := by simp [joinPath]
  rw [hjoin] at h1
  exact ⟨h1, h2.1, h2.2.1, h2.2.2, h3⟩

theorem beq_symm_law {α : Type} [BEq α] [LawfulBEq α] (a b : α) :
    (a == b) = (b == a) := by
  by_cases h : a = b
  · subst h
    rfl
  · rw [beq_eq_false_iff_ne.mpr h, beq_eq_false_iff_ne.mpr (fun hh => h hh.symm)]

theorem pyEqList_symm_bounded (n : Nat)
    (h : ∀ x y : JsonValue, sizeOf x + sizeOf y ≤ n → pyEq x y = pyEq y x) :
    ∀ (as bs : List JsonValue), sizeOf as + sizeOf bs ≤ n →
      pyEqList as bs = pyEqList bs as := by
  intro as
  induction as with
  | nil =>
    intro bs _
    cases bs with
    | nil => rfl
    | cons b bs2 =>
      rw [pyEqList.eq_def]
      conv_rhs => rw [pyEqList.eq_def]
  | cons a as ih =>
    intro bs hsz
    cases bs with
    | nil =>
      rw [pyEqList.eq_def]
      conv_rhs => rw [pyEqList.eq_def]
    | cons b bs2 =>
      rw [pyEqList.eq_def]
      conv_rhs => rw [pyEqList.eq_def]
      dsimp only
      rw [h a b (by simp at hsz ⊢; omega), ih bs2 (by simp at hsz ⊢; omega)]

theorem pyEq_symm : ∀ (x y : JsonValue), pyEq x y = pyEq y x := by
  have main : ∀ (n : Nat) (x y : JsonValue), sizeOf x + sizeOf y ≤ n →
      pyEq x y = pyEq y x := by
    intro n
    induction n with
    | zero =>
      intro x y hsz
      exfalso
      have h1 : 1 ≤ sizeOf x := by cases x <;> simp
      omega
    | succ n ihn =>
      intro x y hsz
      cases x <;> cases y <;>
        try simp [pyEq, numVal, beq_symm_law, Bool.and_comm, Bool.and_assoc,
          Bool.and_left_comm]
      case arr.arr as bs =>
        exact pyEqList_symm_bounded n (fun u v hs => ihn u v hs) as bs
          (by simp at hsz; omega)
  exact fun x y => main (sizeOf x + sizeOf y) x y (Nat.le_refl _)

theorem pyInsert_length (x : JsonValue) :
    ∀ (l : List JsonValue), (pyInsert x l).length = l.length + 1 := by
  intro l
  induction l with
  | nil => rfl
  | cons y ys ih =>
    rw [pyInsert]
    cases pyCmp y x <;> simp [ih]

theorem pySorted_length (l : List JsonValue) :
    (pySorted l).length = l.length := by
  suffices h : ∀ (l acc : List JsonValue),
      (l.foldl (fun a x => pyInsert x a) acc).length = acc.length + l.length by
    simpa using h l []
  intro l
  induction l with
  | nil => intro acc; simp
  | cons x xs ih =>
    intro acc
    simp only [List.foldl_cons]
    rw [ih (pyInsert x acc), pyInsert_length]
    simp only [List.length_cons]
    omega

theorem allPyEq_symm_of_len :
    ∀ (xs ys : List JsonValue), xs.length = ys.length →
      allPyEq xs ys = allPyEq ys xs := by
  intro xs
  induction xs with
  | nil =>
    intro ys h
    cases ys with
    | nil => rfl
    | cons y ys2 => simp at h
  | cons x xs ih =>
    intro ys h
    cases ys with
    | nil => simp at h
    | cons y ys2 =>
      simp only [allPyEq]
      rw [pyEq_symm y x, ih ys2 (by simpa using h)]

theorem allPyEq_iff_forall2 :
    ∀ (xs ys : List JsonValue), xs.length = ys.length →
      (allPyEq xs ys = true ↔
        List.Forall₂ (fun x y => pyEq x y = true) xs ys) := by
  intro xs
  induction xs with
  | nil =>
    intro ys h
    cases ys with
    | nil => simp [allPyEq]
    | cons y ys2 => simp at h
  | cons x xs ih =>
    intro ys h
    cases ys with
    | nil => simp at h
    | cons y ys2 =>
      simp only [allPyEq, Bool.and_eq_true, List.forall₂_cons]
      rw [ih ys2 (by simpa using h), pyEq_symm y x]

/-- C8: the order-independent array equivalence `~=` is valid exactly when
the two lists have equal length and are position-wise Python-equal after
each is independently sorted; consequently it is commutative and
order-independent (`[1,2,3] ~= [3,1,2]` is valid), and lists of different
lengths are never equivalent (`[1,2] ~= [1,2,2]` is invalid). -/
theorem list_similar_equivalence :
    (∀ (a b : List JsonValue), lists_equivalent a b = lists_equivalent b a)
    ∧ (∀ (a b : List JsonValue), lists_equivalent a b = true ↔
        (a.length = b.length ∧
          List.Forall₂ (fun x y => pyEq x y = true) (pySorted a) (pySorted b)))
    ∧ listSimilarCall (.arr [.int 3, .int 1, .int 2])
        (.arr [.int 1, .int 2, .int 3]) =
      .ok (.pathValue true "" (.arr [.int 1, .int 2, .int 3]))
    ∧ listSimilarCall (.arr [.int 1, .int 2, .int 2]) (.arr [.int 1, .int 2]) =
      .ok (.pathValue false "" (.arr [.int 1, .int 2])) := by
  refine ⟨?_, ?_, ?_, ?_⟩
  · intro a b
    by_cases h : a.length = b.length
    · simp only [lists_equivalent, h]
      rw [if_neg (by omega), if_neg (by omega)]
      exact allPyEq_symm_of_len _ _ (by rw [pySorted_length, pySorted_length, h])
    · rw [lists_equivalent, lists_equivalent, if_pos h,
        if_pos (fun hh => h hh.symm)]
  · intro a b
    by_cases h : a.length = b.length
    · simp only [lists_equivalent, if_neg (show ¬a.length ≠ b.length by omega)]
      rw [allPyEq_iff_forall2 _ _ (by rw [pySorted_length, pySorted_length, h])]
      simp [h]
    · simp only [lists_equivalent, if_pos h]
      simp [h]
  · simp [listSimilarCall, lists_equivalent, pySorted, pyInsert, pyCmp,
      intCmp, numVal, allPyEq, pyEq]
  · simp [listSimilarCall, lists_equivalent, pySorted, pyInsert, pyCmp,
      intCmp, numVal, allPyEq, pyEq]

/-- C9 (counterexample): equality of the four items (concrete kind, name,
operand by value, type constraint) is not sufficient for every binary
predicate: two `ListMatchesPredicate`s with the same kind, name (`Matches`),
operand (`[]`) and type constraint (none) but different `strict` flags
compare unequal, because `ListMatchesPredicate.__eq__` additionally
compares `strict` and `unique`. -/
theorem predicate_eq_counterexample :
    predKind (.listMatches [] false false) = predKind (.listMatches [] true false)
    ∧ predName (.listMatches [] false false) = predName (.listMatches [] true false)
    ∧ predOperandEq (.listMatches [] false false) (.listMatches [] true false) = true
    ∧ predOperandType (.listMatches [] false false) =
        predOperandType (.listMatches [] true false)
    ∧ predEq (.listMatches [] false false) (.listMatches [] true false) = false := by
  refine ⟨rfl, rfl, ?_, rfl, ?_⟩
  · simp [predOperandEq, predEqList]
  · simp [predEq, predEqList]

/-- C9 (amended): two binary predicates are equal only if they are of the
same concrete kind with the same name, operand (by value) and type
constraint; for Standard Binary Predicates those conditions are also
sufficient (the comparison function is not compared), so two predicates
built from the same factory with Python-equal operands compare equal by
value regardless of identity.  Match predicates additionally require their
`strict`/`unique` flags to agree. -/
theorem predicate_eq_characterization :
    (∀ (p q : PredData), predEq p q = true →
      predKind p = predKind q ∧ predName p = predName q
      ∧ predOperandEq p q = true ∧ predOperandType p = predOperandType q)
    ∧ (∀ (n c1 c2 : String) (o1 o2 : JsonValue)
        (t : Option TypeConstraint), pyEq o1 o2 = true →
        predEq (.standard n c1 o1 t) (.standard n c2 o2 t) = true)
    ∧ (∀ (f : Factory) (o1 o2 : JsonValue) (p1 p2 : PredData),
        factoryMake f o1 = .ok p1 → factoryMake f o2 = .ok p2 →
        pyEq o1 o2 = true → predEq p1 p2 = true) := by
  refine ⟨?_, ?_, ?_⟩
  · intro p q h
    cases p with
    | standard n1 c1 o1 t1 =>
      cases q with
      | standard n2 c2 o2 t2 =>
        rw [predEq.eq_def] at h
        simp only [Bool.and_eq_true, beq_iff_eq] at h
        refine ⟨rfl, ?_, ?_, ?_⟩
        · simpa [predName] using h.1.1
        · simpa [predOperandEq] using h.1.2
        · simpa [predOperandType] using h.2
      | listMatches o2 s2 u2 =>
        rw [predEq.eq_def] at h
        cases h
    | listMatches o1 s1 u1 =>
      cases q with
      | standard n2 c2 o2 t2 =>
        rw [predEq.eq_def] at h
        cases h
      | listMatches o2 s2 u2 =>
        rw [predEq.eq_def] at h
        simp only [Bool.and_eq_true] at h
        exact ⟨rfl, rfl, by simpa [predOperandEq] using h.1.1, rfl⟩
  · intro n c1 c2 o1 o2 t h
    rw [predEq.eq_def]
    simp [h]
  · intro f o1 o2 p1 p2 h1 h2 he
    have e1 : p1 = .standard f.name f.compOp o1 f.operandType := by
      rw [factoryMake.eq_def] at h1
      cases ht : f.operandType with
      | none => rw [ht] at h1; cases h1; rfl
      | some t =>
        rw [ht] at h1
        dsimp only at h1
        by_cases hc : isInstanceOf o1 t = true
        · rw [if_pos hc] at h1; cases h1; rfl
        · rw [if_neg hc] at h1; cases h1
    have e2 : p2 = .standard f.name f.compOp o2 f.operandType := by
      rw [factoryMake.eq_def] at h2
      cases ht : f.operandType with
      | none => rw [ht] at h2; cases h2; rfl
      | some t =>
        rw [ht] at h2
        dsimp only at h2
        by_cases hc : isInstanceOf o2 t = true
        · rw [if_pos hc] at h2; cases h2; rfl
        · rw [if_neg hc] at h2; cases h2
    subst e1
    subst e2
    rw [predEq.eq_def]
    simp [he]

theorem predicate_eq_characterization_witness :
    predEq (.standard "==" "numEq" (.int 5) (some .numeric))
        (.standard "==" "numEq" (.float 5) (some .numeric)) = true
    ∧ predName (.standard "==" "numEq" (.int 5) (some .numeric)) =
        predName (.standard "==" "numEq" (.float 5) (some .numeric)) := by
  have h := predicate_eq_characterization.2.1 "==" "numEq" "numEq"
    (.int 5) (.float 5) (some .numeric) (by simp [pyEq, numVal])
  exact ⟨h, (predicate_eq_characterization.1 _ _ h).2.1⟩

theorem list_similar_equivalence_witness :
    lists_equivalent [.int 1, .int 2] [.int 2, .int 1] =
      lists_equivalent [.int 2, .int 1] [.int 1, .int 2] :=
  list_similar_equivalence.1 [.int 1, .int 2] [.int 2, .int 1]
